import Mathlib

/-!
# SimpleVector (simple-vector/simple_vector.h)

A shallow embedding of the class template `SimpleVector<Type>` and of the
standard algorithms it calls, followed by theorems about its operations.

Modelling conventions.

* The owned buffer `items_` is a `List T`; its length is the number of
  allocated slots.  `Type{}` is `default`.
* A pointer into the buffer (`Iterator`, `ConstIterator`) is `Option Nat`:
  `none` is `nullptr`, `some i` is `&items_[i]`.
* Every operation returns `Except Fault _`.  `Fault.out_of_range` is the
  exception thrown by `At`; `Fault.undefined_behaviour` marks an access outside
  the allocated buffer or arithmetic on a null pointer.
* `size_t` values are natural numbers.  A buffer of `capacity_` slots is
  allocated, so `capacity_ * 2` and `size_ + 1` stay far below `2 ^ 64`; the one
  wrap-around that small inputs reach, `size_ - 1` at `size_ = 0`, is modelled
  explicitly (`size_t_pred`).
* Moving an element is modelled as copying it (the moved-from slot keeps its
  value, as it does for `int`).
* An argument received by reference (`PushBack`, `Insert`) is a `Ref`: an object
  outside the vector (`Ref.external`), an element of the vector itself
  (`Ref.element`), or a reference into a released block (`Ref.dangling`); it is read
  where the source reads it.
* `operator==` of the element type is equality on `T` and its `operator<` is `<`
  on `T`; "lexicographically less" is `List.lt`.
* A member that leaves its arguments in a new state returns those states: `At`,
  the copy and move constructors, `operator=` and `swap` return pairs.
-/

/-- Ways in which an operation can fail to return normally. -/
inductive Fault where
  | out_of_range
  | undefined_behaviour
  deriving DecidableEq, Repr

/-- Largest value of `size_t` (64-bit). -/
def SIZE_MAX : Nat := 2 ^ 64 - 1

/-- Decrement `n - 1` on `size_t`: wraps to `SIZE_MAX` at zero. -/
def size_t_pred (n : Nat) : Nat := if n = 0 then SIZE_MAX else n - 1

/-- Pointer into the buffer of a vector: `none` is `nullptr`, `some i` is `&items_[i]`. -/
abbrev Iterator := Option Nat

/-- Pointer sum `p + n`; arithmetic on `nullptr` is only defined for `n = 0`. -/
def Iterator.add : Iterator → Nat → Except Fault Iterator
  | some i, n => .ok (some (i + n))
  | none, 0 => .ok none
  | none, _ + 1 => .error .undefined_behaviour

/-- Pointer difference `p - n` with a number; a pointer before the start of the buffer is
undefined. -/
def Iterator.sub : Iterator → Nat → Except Fault Iterator
  | some i, n => if n ≤ i then .ok (some (i - n)) else .error .undefined_behaviour
  | none, 0 => .ok none
  | none, _ + 1 => .error .undefined_behaviour

/-- Pointer difference `p - q` converted to `size_t`, as in `size_t index = pos - begin();`. -/
def Iterator.diff : Iterator → Iterator → Except Fault Nat
  | some i, some j => if j ≤ i then .ok (i - j) else .ok (SIZE_MAX + 1 - (j - i))
  | none, none => .ok 0
  | _, _ => .error .undefined_behaviour

section Memory

variable {T : Type}

/-- Read of slot `i` of a buffer. -/
def load (buf : List T) (i : Nat) : Except Fault T :=
  match buf[i]? with
  | some x => .ok x
  | none => .error .undefined_behaviour

/-- Write of slot `i` of a buffer. -/
def store (buf : List T) (i : Nat) (x : T) : Except Fault (List T) :=
  if i < buf.length then .ok (buf.set i x) else .error .undefined_behaviour

/-- Argument that a member of a vector receives by reference (`const Type &` or
`Type &&`): an object outside the vector's block, the element in slot `j` of the vector's
current block, or a reference into a block that has been released. -/
inductive Ref (T : Type) where
  | external (x : T)
  | element (j : Nat)
  | dangling
  deriving DecidableEq, Repr

/-- Read through a reference, `buf` being the vector's current block. -/
def Ref.read (buf : List T) : Ref T → Except Fault T
  | .external x => .ok x
  | .element j => load buf j
  | .dangling => .error .undefined_behaviour

/-- The reference once the vector has released the block it had when the call started:
a reference to one of its elements dangles. -/
def Ref.after_release : Ref T → Ref T
  | .external x => .external x
  | .element _ => .dangling
  | .dangling => .dangling

/-- Modelled from the spec: `ArrayPtr<Type>(n)` of `array_ptr.h`, which is not in the
sources: a block of `n` slots, all default-valued on creation. -/
def ArrayPtr_new [Inhabited T] (n : Nat) : List T := List.replicate n default

/-- Loop of `std::generate`: `for (; first != last; ++first) *first = g();`.
The first argument bounds the number of iterations. -/
def generate_loop (g : T) (last : Nat) : Nat → Nat → List T → Except Fault (List T)
  | 0, _, _ => .error .undefined_behaviour
  | budget + 1, first, buf =>
    if first = last then .ok buf
    else do
      let buf1 ← store buf first g
      generate_loop g last budget (first + 1) buf1

/-- Call `std::generate(first, last, g)` on a buffer.  The pointer `first` advances one
slot per iteration and a write outside the buffer stops the run, so
`buf.length + 1` iterations are never exceeded. -/
def std_generate (buf : List T) (first last : Iterator) (g : T) : Except Fault (List T) :=
  match first, last with
  | none, none => .ok buf
  | some f, some l => generate_loop g l (buf.length + 1) f buf
  | _, _ => .error .undefined_behaviour

/-- Loop of `std::copy` from one buffer into another:
`for (; first != last; ++first, ++d_first) *d_first = *first;`. -/
def copy_loop (src : List T) (last : Nat) : Nat → Nat → Nat → List T → Except Fault (List T)
  | 0, _, _, _ => .error .undefined_behaviour
  | budget + 1, first, d_first, dst =>
    if first = last then .ok dst
    else do
      let x ← load src first
      let dst1 ← store dst d_first x
      copy_loop src last budget (first + 1) (d_first + 1) dst1

/-- Call `std::copy(first, last, d_first)` where `[first, last)` lies in `src` and `d_first`
points to slot `d_first` of the distinct buffer `dst` (also used with move iterators). -/
def std_copy (src : List T) (first last : Iterator) (dst : List T) (d_first : Nat) :
    Except Fault (List T) :=
  match first, last with
  | none, none => .ok dst
  | some f, some l => copy_loop src l (src.length + 1) f d_first dst
  | _, _ => .error .undefined_behaviour

/-- Loop of `std::move` (the algorithm) inside one buffer:
`for (; first != last; ++first, ++d_first) *d_first = std::move(*first);`. -/
def move_loop (last : Nat) : Nat → Nat → Nat → List T → Except Fault (List T)
  | 0, _, _, _ => .error .undefined_behaviour
  | budget + 1, first, d_first, buf =>
    if first = last then .ok buf
    else do
      let x ← load buf first
      let buf1 ← store buf d_first x
      move_loop last budget (first + 1) (d_first + 1) buf1

/-- Call `std::move(first, last, d_first)` with all three pointers into the same buffer. -/
def std_move (buf : List T) (first last d_first : Iterator) : Except Fault (List T) :=
  match first, last, d_first with
  | none, none, _ => .ok buf
  | some f, some l, some d => move_loop l (buf.length + 1) f d buf
  | _, _, _ => .error .undefined_behaviour

/-- Loop of `std::copy_backward` inside one buffer:
`while (first != last) *(--d_last) = *(--last);`.  Decrementing a pointer that is at
the start of the buffer is undefined. -/
def copy_backward_loop (first : Nat) : Nat → Nat → List T → Except Fault (List T)
  | 0, _, buf => if first = 0 then .ok buf else .error .undefined_behaviour
  | last + 1, d_last, buf =>
    if first = last + 1 then .ok buf
    else
      match d_last with
      | 0 => .error .undefined_behaviour
      | d + 1 => do
        let x ← load buf last
        let buf1 ← store buf d x
        copy_backward_loop first last d buf1

/-- Call `std::copy_backward(first, last, d_last)` with all three pointers into the same
buffer. -/
def std_copy_backward (buf : List T) (first last d_last : Iterator) : Except Fault (List T) :=
  match first, last, d_last with
  | none, none, _ => .ok buf
  | some f, some l, some d => copy_backward_loop f l d buf
  | _, _, _ => .error .undefined_behaviour

/-- Call `std::move_backward(first, last, d_last)`: the loop of `std::copy_backward` with
each assignment a move. -/
def std_move_backward (buf : List T) (first last d_last : Iterator) : Except Fault (List T) :=
  std_copy_backward buf first last d_last

/-- Modelled from the spec: move construction of `ArrayPtr<Type>` (`array_ptr.h` is not in
the sources): ownership of the block goes to the new object (first component) and the
source (second component) is left without storage. -/
def ArrayPtr_move (src : List T) : List T × List T := (src, [])

/-- Modelled from the spec: `ArrayPtr<Type>::swap` (`array_ptr.h` is not in the sources):
the two objects exchange their blocks, no element is copied. -/
def ArrayPtr_swap (a b : List T) : List T × List T := (b, a)

/-- Loop of `std::equal` over two buffers:
`for (; first1 != last1; ++first1, ++first2) if (!(*first1 == *first2)) return false;`
followed by `return true;`. -/
def equal_loop [DecidableEq T] (a : List T) (last1 : Nat) (b : List T) :
    Nat → Nat → Nat → Except Fault Bool
  | 0, _, _ => .error .undefined_behaviour
  | budget + 1, first1, first2 =>
    if first1 = last1 then .ok true
    else do
      let x ← load a first1
      let y ← load b first2
      if x = y then equal_loop a last1 b budget (first1 + 1) (first2 + 1)
      else pure false

/-- Call `std::equal(first1, last1, first2)`, the first range in `a`, the second in `b`. -/
def std_equal [DecidableEq T] (a : List T) (first1 last1 : Iterator) (b : List T)
    (first2 : Iterator) : Except Fault Bool :=
  match first1, last1, first2 with
  | none, none, _ => .ok true
  | some f1, some l1, some f2 => equal_loop a l1 b (a.length + 1) f1 f2
  | _, _, _ => .error .undefined_behaviour

/-- Loop of `std::lexicographical_compare` over two buffers:
`for (; first1 != last1 && first2 != last2; ++first1, ++first2)`
`{ if (*first1 < *first2) return true; if (*first2 < *first1) return false; }`
followed by `return first1 == last1 && first2 != last2;`. -/
def lexicographical_compare_loop [LT T] [DecidableRel (fun x y : T => x < y)]
    (a : List T) (last1 : Nat) (b : List T) (last2 : Nat) : Nat → Nat → Nat → Except Fault Bool
  | 0, _, _ => .error .undefined_behaviour
  | budget + 1, first1, first2 =>
    if first1 ≠ last1 ∧ first2 ≠ last2 then do
      let x ← load a first1
      let y ← load b first2
      if x < y then pure true
      else if y < x then pure false
      else lexicographical_compare_loop a last1 b last2 budget (first1 + 1) (first2 + 1)
    else pure (decide (first1 = last1 ∧ first2 ≠ last2))

/-- Call `std::lexicographical_compare(first1, last1, first2, last2)`, the first range in
`a`, the second in `b`.  A null range is empty: the loop is not entered. -/
def std_lexicographical_compare [LT T] [DecidableRel (fun x y : T => x < y)]
    (a : List T) (first1 last1 : Iterator) (b : List T) (first2 last2 : Iterator) :
    Except Fault Bool :=
  match first1, last1, first2, last2 with
  | some f1, some l1, some f2, some l2 =>
    lexicographical_compare_loop a l1 b l2 (a.length + 1) f1 f2
  | none, none, none, none => .ok false
  | none, none, some f2, some l2 => .ok (decide (f2 ≠ l2))
  | some _, some _, none, none => .ok false
  | _, _, _, _ => .error .undefined_behaviour

end Memory

/-- State of a `SimpleVector<Type>`: the members `items_`, `size_`, `capacity_`. -/
structure SimpleVector (T : Type) where
  items_ : List T
  size_ : Nat
  capacity_ : Nat
  deriving DecidableEq, Repr

namespace SimpleVector

variable {T : Type}

/-- Member `SimpleVector() noexcept = default;` -/
def empty : SimpleVector T := { items_ := [], size_ := 0, capacity_ := 0 }

/-- Member `explicit SimpleVector(size_t size)` -/
def ofSize [Inhabited T] (size : Nat) : SimpleVector T :=
  { items_ := ArrayPtr_new size, size_ := size, capacity_ := size }

/-- Member `explicit SimpleVector(struct Reserve capacity)` -/
def ofReserve [Inhabited T] (capacity : Nat) : SimpleVector T :=
  { items_ := ArrayPtr_new capacity, size_ := 0, capacity_ := capacity }

/-- Member `SimpleVector(std::initializer_list<Type> init)`: a buffer of `init.size()` slots
filled by `std::copy(init.begin(), init.end(), items_.Get())`. -/
def ofList [Inhabited T] (init : List T) : Except Fault (SimpleVector T) := do
  let buf ← std_copy init (some 0) (some init.length) (ArrayPtr_new init.length) 0
  pure { items_ := buf, size_ := init.length, capacity_ := init.length }

/-- Member `GetSize()` -/
def GetSize (v : SimpleVector T) : Nat := v.size_

/-- Member `GetCapacity()` -/
def GetCapacity (v : SimpleVector T) : Nat := v.capacity_

/-- Member `IsEmpty()` -/
def IsEmpty (v : SimpleVector T) : Bool := v.size_ == 0

/-- Member `begin()` / `cbegin()`: `size_ ? &items_[0] : nullptr`. -/
def begin (v : SimpleVector T) : Iterator := if v.size_ ≠ 0 then some 0 else none

/-- Member `end()` / `cend()`: `size_ ? &items_[size_] : nullptr`. -/
def end_ (v : SimpleVector T) : Iterator := if v.size_ ≠ 0 then some v.size_ else none

/-- Member `operator[](index)`: `items_[index]`, unchecked against `size_`. -/
def index (v : SimpleVector T) (i : Nat) : Except Fault T := load v.items_ i

/-- Dereference `*it` of a pointer into the vector. -/
def deref (v : SimpleVector T) : Iterator → Except Fault T
  | some i => load v.items_ i
  | none => .error .undefined_behaviour

/-- Member `At(index)`: throws `std::out_of_range` when `index >= size_`, else returns
`items_[index]`.  The second component is the vector after the call. -/
def At (v : SimpleVector T) (i : Nat) : Except Fault T × SimpleVector T :=
  (if i ≥ v.size_ then .error .out_of_range else load v.items_ i, v)

/-- Member `Resize(new_size)` -/
def Resize [Inhabited T] (v : SimpleVector T) (new_size : Nat) :
    Except Fault (SimpleVector T) :=
  if new_size ≤ v.capacity_ then
    if new_size > v.size_ then do
      let first ← v.begin.add new_size
      let buf ← std_generate v.items_ first v.end_ default
      pure { v with items_ := buf, size_ := new_size }
    else
      pure { v with size_ := new_size }
  else do
    let new_items : List T := ArrayPtr_new new_size
    let new_items1 ← std_copy v.items_ v.begin v.end_ new_items 0
    pure { items_ := new_items1, size_ := new_size, capacity_ := new_size }

/-- Member `Clear()` -/
def Clear [Inhabited T] (v : SimpleVector T) : Except Fault (SimpleVector T) := v.Resize 0

/-- Whether `Resize(new_size)` releases the block the vector had: its growth path swaps
the new block in and the old one is destroyed with `new_items` when `Resize` returns. -/
def Resize_releases (v : SimpleVector T) (new_size : Nat) : Bool :=
  !decide (new_size ≤ v.capacity_)

/-- Member `PushBack(item)` (both overloads); `item` is received by reference and is read
in the assignment `items_[size] = item`, after `Resize` on the growth branch. -/
def PushBack [Inhabited T] (v : SimpleVector T) (item : Ref T) :
    Except Fault (SimpleVector T) :=
  if v.size_ < v.capacity_ then do
    let x ← item.read v.items_
    let buf ← store v.items_ v.size_ x
    pure { v with items_ := buf, size_ := v.size_ + 1 }
  else do
    let size := v.size_
    let new_size := if v.size_ ≠ 0 then v.size_ * 2 else 1
    let v1 ← v.Resize new_size
    let item1 := if v.Resize_releases new_size then item.after_release else item
    let x ← item1.read v1.items_
    let buf ← store v1.items_ size x
    pure { v1 with items_ := buf, size_ := size + 1 }

/-- Member `PopBack()`: `size_--`. -/
def PopBack (v : SimpleVector T) : SimpleVector T := { v with size_ := size_t_pred v.size_ }

/-- Member `Insert(ConstIterator pos, const Type &value)`; `value` is received by
reference, is handed on to `PushBack` or read in `items_[index] = value`, in both cases
after the `Resize` of a full vector. -/
def Insert [Inhabited T] (v : SimpleVector T) (pos : Iterator) (value : Ref T) :
    Except Fault (Iterator × SimpleVector T) :=
  if v.size_ = 0 then do
    let v1 ← v.PushBack value
    pure (v1.begin, v1)
  else do
    let index ← pos.diff v.begin
    let p ← (if v.size_ = v.capacity_ then do
        let size := v.size_
        let r ← v.Resize (v.capacity_ * 2)
        pure ({ r with size_ := size },
          if v.Resize_releases (v.capacity_ * 2) then value.after_release else value)
      else pure (v, value))
    let v1 := p.1
    let value1 := p.2
    let v2 ← (if index = size_t_pred v1.size_ then v1.PushBack value1
      else do
        let first ← v1.begin.add index
        let last ← v1.end_.sub 1
        let buf ← std_copy_backward v1.items_ first last v1.end_
        let x ← value1.read buf
        let buf1 ← store buf index x
        pure { v1 with items_ := buf1, size_ := v1.size_ + 1 })
    let it ← v2.begin.add index
    pure (it, v2)

/-- Member `Insert(ConstIterator pos, Type &&value)`; `value` is received by reference as
in the copying overload. -/
def InsertMove [Inhabited T] (v : SimpleVector T) (pos : Iterator) (value : Ref T) :
    Except Fault (Iterator × SimpleVector T) :=
  if v.size_ = 0 then do
    let v1 ← v.PushBack value
    pure (v1.begin, v1)
  else do
    let index ← pos.diff v.begin
    let p ← (if v.size_ = v.capacity_ then do
        let size := v.size_
        let r ← v.Resize (v.capacity_ * 2)
        pure ({ r with size_ := size },
          if v.Resize_releases (v.capacity_ * 2) then value.after_release else value)
      else pure (v, value))
    let v1 := p.1
    let value1 := p.2
    let v2 ← (if index = size_t_pred v1.size_ then v1.PushBack value1
      else do
        let first ← v1.begin.add index
        let d_last ← v1.end_.add 1
        let buf ← std_move_backward v1.items_ first v1.end_ d_last
        let x ← value1.read buf
        let buf1 ← store buf index x
        pure { v1 with items_ := buf1, size_ := v1.size_ + 1 })
    let it ← v2.begin.add index
    pure (it, v2)

/-- Member `Erase(ConstIterator pos)` -/
def Erase (v : SimpleVector T) (pos : Iterator) : Except Fault (Iterator × SimpleVector T) := do
  let index ← pos.diff v.begin
  if index = size_t_pred v.size_ then
    let v1 := v.PopBack
    pure (v1.end_, v1)
  else
    let first ← (← v.begin.add index).add 1
    let d_first ← v.begin.add index
    let buf ← std_move v.items_ first v.end_ d_first
    let v1 : SimpleVector T := { v with items_ := buf, size_ := size_t_pred v.size_ }
    let it ← v1.begin.add index
    pure (it, v1)

/-- Member `Reserve(new_capacity)` -/
def Reserve [Inhabited T] (v : SimpleVector T) (new_capacity : Nat) :
    Except Fault (SimpleVector T) :=
  if new_capacity < v.capacity_ then pure v
  else do
    let size := v.size_
    let v1 ← v.Resize new_capacity
    pure { v1 with size_ := size }

/-- Member `SimpleVector(const SimpleVector &other)`; the result is the new vector together
with `other` after the call. -/
def copy_construct [Inhabited T] (other : SimpleVector T) :
    Except Fault (SimpleVector T × SimpleVector T) := do
  let self : SimpleVector T := ofSize other.size_
  if !other.IsEmpty then
    let buf ← std_copy other.items_ other.begin other.end_ self.items_ 0
    pure ({ self with items_ := buf }, other)
  else
    pure (self, other)

/-- Member `SimpleVector(SimpleVector &&other) noexcept`; the result is the new vector
together with `other` after the call. -/
def move_construct (other : SimpleVector T) : SimpleVector T × SimpleVector T :=
  let moved := ArrayPtr_move other.items_
  ({ items_ := moved.1, size_ := other.size_, capacity_ := other.capacity_ },
   { items_ := moved.2, size_ := 0, capacity_ := 0 })

/-- Member `operator=(const SimpleVector &rhs)`; `same_object` is the test `this == &rhs`.
The result is `*this` together with `rhs` after the call. -/
def operator_assign [Inhabited T] (self rhs : SimpleVector T) (same_object : Bool) :
    Except Fault (SimpleVector T × SimpleVector T) :=
  if same_object then pure (self, rhs)
  else do
    let new_items : List T := ArrayPtr_new rhs.size_
    let new_items1 ← std_copy rhs.items_ rhs.begin rhs.end_ new_items 0
    let swapped := ArrayPtr_swap self.items_ new_items1
    pure ({ items_ := swapped.1, size_ := rhs.size_, capacity_ := rhs.size_ }, rhs)

/-- Free function `operator==`. -/
def operator_eq [DecidableEq T] (lhs rhs : SimpleVector T) : Except Fault Bool :=
  if lhs.GetSize ≠ rhs.GetSize then pure false
  else if (lhs.begin == none) != (rhs.begin == none) then pure false
  else std_equal lhs.items_ lhs.begin lhs.end_ rhs.items_ rhs.begin

/-- Free function `operator!=`: `!(lhs == rhs)`. -/
def operator_ne [DecidableEq T] (lhs rhs : SimpleVector T) : Except Fault Bool := do
  let r ← operator_eq lhs rhs
  pure (!r)

/-- Free function `operator<`. -/
def operator_lt [LT T] [DecidableRel (fun x y : T => x < y)] (lhs rhs : SimpleVector T) :
    Except Fault Bool :=
  if (lhs.begin == none) != (rhs.begin == none) then pure false
  else std_lexicographical_compare lhs.items_ lhs.begin lhs.end_ rhs.items_ rhs.begin rhs.end_

/-- Free function `operator>`: `rhs < lhs`. -/
def operator_gt [LT T] [DecidableRel (fun x y : T => x < y)] (lhs rhs : SimpleVector T) :
    Except Fault Bool :=
  operator_lt rhs lhs

/-- Free function `operator<=`: `!(lhs > rhs)`. -/
def operator_le [LT T] [DecidableRel (fun x y : T => x < y)] (lhs rhs : SimpleVector T) :
    Except Fault Bool := do
  let r ← operator_gt lhs rhs
  pure (!r)

/-- Free function `operator>=`: `!(lhs < rhs)`. -/
def operator_ge [LT T] [DecidableRel (fun x y : T => x < y)] (lhs rhs : SimpleVector T) :
    Except Fault Bool := do
  let r ← operator_lt lhs rhs
  pure (!r)

/-- The live elements: the slots `[0, size_)` of the buffer. -/
def live (v : SimpleVector T) : List T := v.items_.take v.size_

/-- Class invariant: `size_ <= capacity_` and `capacity_` is the length of the buffer. -/
def WF (v : SimpleVector T) : Prop := v.size_ ≤ v.capacity_ ∧ v.capacity_ = v.items_.length

/-- Calls of `PushBack`, one for each value of a list, in order; each argument is an
object outside the vector. -/
def PushBackAll [Inhabited T] (v : SimpleVector T) : List T → Except Fault (SimpleVector T)
  | [] => pure v
  | x :: xs => do
    let v1 ← v.PushBack (.external x)
    PushBackAll v1 xs

end SimpleVector

/-! ## Buffer accesses and the loops of the standard algorithms -/

section BufferLemmas

variable {T : Type}

theorem load_of_lt (buf : List T) (i : Nat) (h : i < buf.length) :
    load buf i = .ok (buf.get ⟨i, h⟩) := by
  simp [load, List.getElem?_eq_getElem h]

theorem store_of_lt (buf : List T) (i : Nat) (x : T) (h : i < buf.length) :
    store buf i x = .ok (buf.set i x) := by
  simp [store, h]

theorem store_of_ge (buf : List T) (i : Nat) (x : T) (h : buf.length ≤ i) :
    store buf i x = .error .undefined_behaviour := by
  simp [store, Nat.not_lt.mpr h]

theorem take_succ_set (dst : List T) (d : Nat) (x : T) (hd : d < dst.length) :
    (dst.set d x).take (d + 1) = dst.take d ++ [x] := by
  rw [List.take_succ, List.set_take]
  simp [hd]
  exact List.set_eq_of_length_le (by simp)

theorem drop_set_gt (dst : List T) (d m : Nat) (x : T) (h : d < m) :
    (dst.set d x).drop m = dst.drop m := by
  rw [List.drop_set]; simp [h]

/-- Shape of a buffer after slot `d` received the first element of a block and the
rest of the block is laid out behind it. -/
theorem set_block_step (src dst : List T) (first d n : Nat) (x : T) (hf : first < src.length)
    (hx : src.get ⟨first, hf⟩ = x) (hd : d < dst.length) :
    (dst.set d x).take (d + 1) ++ (src.drop (first + 1)).take n ++ (dst.set d x).drop (d + 1 + n)
      = dst.take d ++ (src.drop first).take (n + 1) ++ dst.drop (d + (n + 1)) := by
  rw [take_succ_set dst d x hd, drop_set_gt dst d (d + 1 + n) x (by omega),
    List.drop_eq_getElem_cons hf, List.take_succ_cons]
  subst hx
  simp [Nat.add_assoc, Nat.add_comm 1 n]

/-- On a valid source range whose image fits the destination, the loop of `std::copy`
returns the destination with the block `[first, last)` of the source laid over the
slots from `d` on. -/
theorem copy_loop_valid (src : List T) (last : Nat) (hl : last ≤ src.length) :
    ∀ (budget first d : Nat) (dst : List T), first ≤ last →
      d + (last - first) ≤ dst.length → last - first < budget →
      copy_loop src last budget first d dst
        = .ok (dst.take d ++ (src.drop first).take (last - first)
            ++ dst.drop (d + (last - first))) := by
  intro budget
  induction budget with
  | zero => intro first d dst _ _ h; omega
  | succ b ih =>
    intro first d dst hfl hd hb
    unfold copy_loop
    by_cases h : first = last
    · subst h; simp
    · have hf : first < src.length := by omega
      have hdl : d < dst.length := by omega
      simp only [h, if_false, load_of_lt src first hf, store_of_lt dst d _ hdl]
      show copy_loop src last b (first + 1) (d + 1) (dst.set d _) = _
      rw [ih (first + 1) (d + 1) _ (by omega) (by simp; omega) (by omega)]
      have hn : last - first = (last - (first + 1)) + 1 := by omega
      rw [hn, ← set_block_step src dst first d (last - (first + 1)) _ hf rfl hdl]

/-- The loop of `std::move` inside one buffer, on a valid range whose destination starts
before the source: the block `[first, last)` is laid over the slots from `d` on. -/
theorem move_loop_valid (last : Nat) :
    ∀ (budget first d : Nat) (buf : List T), first ≤ last → last ≤ buf.length →
      d < first → last - first < budget →
      move_loop last budget first d buf
        = .ok (buf.take d ++ (buf.drop first).take (last - first)
            ++ buf.drop (d + (last - first))) := by
  intro budget
  induction budget with
  | zero => intro first d buf _ _ _ h; omega
  | succ b ih =>
    intro first d buf hfl hl hdf hb
    unfold move_loop
    by_cases h : first = last
    · subst h; simp
    · have hf : first < buf.length := by omega
      have hdl : d < buf.length := by omega
      simp only [h, if_false, load_of_lt buf first hf, store_of_lt buf d _ hdl]
      show move_loop last b (first + 1) (d + 1) (buf.set d _) = _
      rw [ih (first + 1) (d + 1) _ (by omega) (by simp; omega) (by omega) (by omega)]
      have hn : last - first = (last - (first + 1)) + 1 := by omega
      rw [hn, ← set_block_step buf buf first d (last - (first + 1)) _ hf rfl hdl,
        drop_set_gt buf d (first + 1) _ (by omega)]

/-- With `first` beyond `last` the loop of `std::generate` never meets `last`: it ends
in a write outside the buffer, whatever the iteration bound. -/
theorem generate_loop_past (g : T) (last : Nat) :
    ∀ (budget first : Nat) (buf : List T), last < first →
      generate_loop g last budget first buf = .error .undefined_behaviour := by
  intro budget
  induction budget with
  | zero => intro first buf _; rfl
  | succ b ih =>
    intro first buf h
    unfold generate_loop
    have hne : first ≠ last := by omega
    by_cases hb : first < buf.length
    · simp only [hne, if_false, store_of_lt buf first g hb]
      exact ih (first + 1) _ (by omega)
    · simp only [hne, if_false, store_of_ge buf first g (by omega)]
      rfl

end BufferLemmas

/-! ## Operations on a vector that satisfies the class invariant -/

namespace SimpleVector

variable {T : Type}

theorem live_length (v : SimpleVector T) (h : v.WF) : v.live.length = v.size_ := by
  unfold live; rw [List.length_take]; have := h.1; have := h.2; omega

/-- Growth path of `Resize`: a fresh buffer of `new_size` slots that starts with the live
elements, the rest default-valued. -/
theorem Resize_grow [Inhabited T] (v : SimpleVector T) (new_size : Nat) (h : v.WF)
    (hn : v.capacity_ < new_size) :
    v.Resize new_size = .ok { items_ := v.live ++ List.replicate (new_size - v.size_) default,
                              size_ := new_size, capacity_ := new_size } := by
  obtain ⟨h1, h2⟩ := h
  unfold Resize
  rw [if_neg (by omega)]
  by_cases hs : v.size_ = 0
  · simp [begin, end_, hs, std_copy, ArrayPtr_new, live, bind, Except.bind, pure, Except.pure]
  · simp only [begin, end_, hs, ne_eq, not_false_eq_true, if_true, std_copy, ArrayPtr_new]
    rw [copy_loop_valid v.items_ v.size_ (by omega) _ 0 0 _ (by omega) (by simp; omega) (by omega)]
    simp [live, bind, Except.bind, pure, Except.pure]

/-- For an argument outside the vector `PushBack` reads the same value on both
branches. -/
theorem PushBack_external [Inhabited T] (v : SimpleVector T) (x : T) :
    v.PushBack (.external x)
      = (if v.size_ < v.capacity_ then do
          let buf ← store v.items_ v.size_ x
          pure { v with items_ := buf, size_ := v.size_ + 1 }
        else do
          let v1 ← v.Resize (if v.size_ ≠ 0 then v.size_ * 2 else 1)
          let buf ← store v1.items_ v.size_ x
          pure { v1 with items_ := buf, size_ := v.size_ + 1 }) := by
  unfold PushBack
  by_cases hc : v.size_ < v.capacity_
  · simp only [if_pos hc, Ref.read, bind, Except.bind]
  · simp only [if_neg hc, Ref.after_release, ite_self, Ref.read, bind, Except.bind]

/-- With a free slot `PushBack` reads its argument in the current block and stores it
behind the live elements. -/
theorem PushBack_room [Inhabited T] (v : SimpleVector T) (item : Ref T)
    (hc : v.size_ < v.capacity_) :
    v.PushBack item = (do
      let x ← item.read v.items_
      let buf ← store v.items_ v.size_ x
      pure { v with items_ := buf, size_ := v.size_ + 1 }) := by
  unfold PushBack
  rw [if_pos hc]

/-- Result of `PushBack` on a vector that satisfies the class invariant. -/
theorem PushBack_spec [Inhabited T] (v : SimpleVector T) (item : T) (h : v.WF) :
    ∃ w, v.PushBack (.external item) = .ok w ∧ w.WF ∧ w.live = v.live ++ [item] ∧
      w.size_ = v.size_ + 1 ∧
      w.capacity_ = if v.size_ < v.capacity_ then v.capacity_ else max 1 (2 * v.capacity_) := by
  have hlen := live_length v h
  obtain ⟨h1, h2⟩ := h
  rw [PushBack_external]
  by_cases hc : v.size_ < v.capacity_
  · rw [if_pos hc, store_of_lt _ _ _ (by omega)]
    refine ⟨_, rfl, ⟨by simp; omega, by simp; omega⟩, ?_, rfl, by simp [hc]⟩
    simp only [live]
    exact take_succ_set _ _ _ (by omega)
  · rw [if_neg hc]
    have he : v.size_ = v.capacity_ := by omega
    have hg : v.capacity_ < (if v.size_ ≠ 0 then v.size_ * 2 else 1) := by
      split <;> omega
    rw [Resize_grow v _ ⟨h1, h2⟩ hg]
    simp only [bind, Except.bind]
    have hlt : v.size_ < (v.live ++ List.replicate
        ((if v.size_ ≠ 0 then v.size_ * 2 else 1) - v.size_) (default : T)).length := by
      rw [List.length_append, List.length_replicate, hlen]; omega
    rw [store_of_lt _ _ _ hlt]
    refine ⟨_, rfl, ⟨?_, ?_⟩, ?_, rfl, ?_⟩
    · simp only; split <;> omega
    · simp only [List.length_set, List.length_append, List.length_replicate, hlen]; omega
    · show List.take (v.size_ + 1) ((v.live ++ _).set v.size_ item) = v.live ++ [item]
      rw [take_succ_set _ _ _ hlt, List.take_left' hlen]
    · simp only [hc, if_false]
      split <;> omega

/-- At the last live index `Erase` is `PopBack`, returning `end()`. -/
theorem Erase_last (v : SimpleVector T) (hs : v.size_ ≠ 0) :
    v.Erase (some (v.size_ - 1)) = .ok (v.PopBack.end_, v.PopBack) := by
  have hpred : size_t_pred v.size_ = v.size_ - 1 := by simp [size_t_pred, hs]
  unfold Erase
  simp [begin, hs, Iterator.diff, bind, Except.bind, hpred, pure, Except.pure]

/-- Before the last live index `Erase` shifts the tail of the live range one slot to the
front. -/
theorem Erase_inner (v : SimpleVector T) (i : Nat) (h : v.WF) (hi : i + 1 < v.size_) :
    v.Erase (some i) = .ok (some i,
      { items_ := v.items_.take i ++ (v.items_.drop (i + 1)).take (v.size_ - (i + 1))
                    ++ v.items_.drop (i + (v.size_ - (i + 1))),
        size_ := v.size_ - 1, capacity_ := v.capacity_ }) := by
  obtain ⟨h1, h2⟩ := h
  have hs : v.size_ ≠ 0 := by omega
  have hpred : size_t_pred v.size_ = v.size_ - 1 := by simp [size_t_pred, hs]
  have hlast : ¬ i = v.size_ - 1 := by omega
  have hz : v.size_ - 1 ≠ 0 := by omega
  have hm := move_loop_valid v.size_ (v.items_.length + 1) (i + 1) i v.items_ (by omega)
    (by omega) (by omega) (by omega)
  unfold Erase
  simp only [begin, hs, ne_eq, not_false_eq_true, if_true, Iterator.diff, Nat.zero_le,
    Nat.sub_zero, bind, Except.bind, hpred, if_neg hlast, Iterator.add, end_, std_move,
    Nat.zero_add, hm, hz, pure, Except.pure]

/-- Result of `Erase` at a position inside the live range. -/
theorem Erase_spec (v : SimpleVector T) (i : Nat) (h : v.WF) (hi : i < v.size_) :
    ∃ it w, v.Erase (some i) = .ok (it, w) ∧ w.WF ∧ w.size_ = v.size_ - 1 ∧
      w.live = v.live.take i ++ v.live.drop (i + 1) ∧ w.capacity_ = v.capacity_ ∧
      w.begin.add i = .ok it ∧
      (i + 1 < v.size_ → ∃ x, v.live[i + 1]? = some x ∧ w.deref it = .ok x) ∧
      (i + 1 = v.size_ → it = w.end_) := by
  have hs : v.size_ ≠ 0 := by omega
  have hpred : size_t_pred v.size_ = v.size_ - 1 := by simp [size_t_pred, hs]
  have hlive : v.live.take i ++ v.live.drop (i + 1)
      = v.items_.take i ++ (v.items_.drop (i + 1)).take (v.size_ - (i + 1)) := by
    simp only [live]
    rw [List.take_take, List.drop_take, Nat.min_eq_left (by omega)]
  by_cases hlast : i + 1 = v.size_
  · have hi' : i = v.size_ - 1 := by omega
    obtain ⟨h1, h2⟩ := h
    have hps : (v.PopBack).size_ = v.size_ - 1 := by simp [PopBack, hpred]
    have hpi : (v.PopBack).items_ = v.items_ := rfl
    have hcap : v.PopBack.size_ ≤ v.PopBack.capacity_ := by
      rw [hps]; exact (by omega : v.size_ - 1 ≤ v.capacity_)
    refine ⟨v.PopBack.end_, v.PopBack, hi' ▸ Erase_last v hs, ⟨hcap, h2⟩,
      hps, ?_, rfl, ?_, fun hlt => by omega, fun _ => rfl⟩
    · rw [hlive]
      simp only [live, hps, hpi]
      have : v.size_ - (i + 1) = 0 := by omega
      rw [this, ← hi']; simp
    · simp only [end_, begin, hps]
      by_cases hz : v.size_ - 1 = 0
      · have : i = 0 := by omega
        subst this; simp [hz, Iterator.add]
      · simp [hz, Iterator.add, hi']
  · have hlt : i + 1 < v.size_ := by omega
    have hz : v.size_ - 1 ≠ 0 := by omega
    have hwf := h
    obtain ⟨h1, h2⟩ := h
    refine ⟨_, _, Erase_inner v i hwf hlt, ⟨by simp; omega, by simp; omega⟩, rfl, ?_, rfl,
      ?_, ?_, fun hh => by omega⟩
    · rw [hlive]
      simp only [live]
      rw [List.take_left']
      simp only [List.length_append, List.length_take, List.length_drop]; omega
    · simp [begin, hz, Iterator.add]
    · intro _
      have hx : i + 1 < v.items_.length := by omega
      refine ⟨v.items_.get ⟨i + 1, hx⟩, ?_, ?_⟩
      · simp only [live]
        rw [List.getElem?_take_of_lt (by omega), List.getElem?_eq_getElem hx]; rfl
      · simp only [deref, load]
        rw [List.append_assoc, List.getElem?_append_right (by simp)]
        simp only [List.length_take, Nat.min_eq_left (by omega : i ≤ v.items_.length),
          Nat.sub_self]
        rw [List.getElem?_append_left (by simp; omega), List.getElem?_take_of_lt (by omega),
          List.getElem?_drop]
        simp [List.getElem?_eq_getElem hx]

/-- Call of `Reserve` away from the case `new_capacity = capacity_ > size_`: size and live
elements are kept and the capacity is the larger of the old one and the request. -/
theorem Reserve_spec [Inhabited T] (v : SimpleVector T) (new_capacity : Nat) (h : v.WF)
    (hc : new_capacity ≠ v.capacity_ ∨ v.size_ = v.capacity_) :
    ∃ w, v.Reserve new_capacity = .ok w ∧ w.WF ∧ w.size_ = v.size_ ∧ w.live = v.live ∧
      w.capacity_ = max v.capacity_ new_capacity := by
  have hlen := live_length v h
  have hwf := h
  obtain ⟨h1, h2⟩ := h
  unfold Reserve
  by_cases hlt : new_capacity < v.capacity_
  · rw [if_pos hlt]
    exact ⟨v, rfl, hwf, rfl, rfl, by omega⟩
  · rw [if_neg hlt]
    by_cases heq : new_capacity = v.capacity_
    · have hsz : v.size_ = v.capacity_ := by rcases hc with hc | hc; exact absurd heq hc; exact hc
      refine ⟨v, ?_, hwf, rfl, rfl, by omega⟩
      unfold Resize
      rw [if_pos (by omega), if_neg (by omega)]
      simp [bind, Except.bind, pure, Except.pure]
    · rw [Resize_grow v new_capacity hwf (by omega)]
      refine ⟨_, rfl, ⟨by simp; omega, ?_⟩, rfl, ?_, by simp; omega⟩
      · simp only [bind, Except.bind, pure, Except.pure, List.length_append, List.length_replicate,
          hlen]
        omega
      · show List.take v.size_ (v.live ++ _) = v.live
        exact List.take_left' hlen

end SimpleVector

/-! ## Insert and Erase -/

/-- C1: on the vector built by `PushBack(10)`, `PushBack(20)`, the call
`Insert(begin() + 1, 15)` (either overload) leaves the live elements `[10, 20, 15]`, not
`[10, 15, 20]`: at the last live index the value is appended.  The copying overload at
`begin()` gives `[15, 10, 0]` (the last element is lost) and at `end()` it is undefined. -/
theorem Insert_before_last_appends :
    (SimpleVector.empty : SimpleVector Nat).PushBackAll [10, 20] = .ok ⟨[10, 20], 2, 2⟩ ∧
    (⟨[10, 20], 2, 2⟩ : SimpleVector Nat).Insert (some 1) (.external 15)
      = .ok (some 1, ⟨[10, 20, 15, 0], 3, 4⟩) ∧
    (⟨[10, 20], 2, 2⟩ : SimpleVector Nat).InsertMove (some 1) (.external 15)
      = .ok (some 1, ⟨[10, 20, 15, 0], 3, 4⟩) ∧
    (⟨[10, 20, 15, 0], 3, 4⟩ : SimpleVector Nat).live = [10, 20, 15] ∧
    (⟨[10, 20], 2, 2⟩ : SimpleVector Nat).Insert (some 0) (.external 15)
      = .ok (some 0, ⟨[15, 10, 0, 0], 3, 4⟩) ∧
    (⟨[10, 20], 2, 2⟩ : SimpleVector Nat).Insert (some 2) (.external 15)
      = .error .undefined_behaviour :=
  ⟨rfl, rfl, rfl, rfl, rfl, rfl⟩

/-- C2: on the vector `[10, 20]` the iterator returned by `Insert(begin() + 1, 15)` (either
overload) is `begin() + 1` of the result, and the element stored there is `20`, not the
inserted `15`. -/
theorem Insert_returned_iterator_not_inserted :
    ((⟨[10, 20], 2, 2⟩ : SimpleVector Nat).Insert (some 1) (.external 15) >>= fun r =>
        r.2.begin.add 1 >>= fun p => r.2.deref r.1 >>= fun x => pure (r.1 == p, x))
      = .ok (true, 20) ∧
    ((⟨[10, 20], 2, 2⟩ : SimpleVector Nat).InsertMove (some 1) (.external 15) >>= fun r =>
        r.2.begin.add 1 >>= fun p => r.2.deref r.1 >>= fun x => pure (r.1 == p, x))
      = .ok (true, 20) :=
  ⟨rfl, rfl⟩

/-- C3: on the vector `[10, 20]`, `it = Insert(begin() + 1, 15)` followed by `Erase(it)`
leaves the live elements `[10, 15]` (either overload), and with the copying overload
`it = Insert(begin(), 15)` followed by `Erase(it)` leaves `[10, 0]`: the original sequence
`[10, 20]` is not restored. -/
theorem Insert_then_Erase_not_restored :
    ((⟨[10, 20], 2, 2⟩ : SimpleVector Nat).Insert (some 1) (.external 15) >>= fun r =>
        r.2.Erase r.1 >>= fun e => pure (e.2.live, e.2.size_)) = .ok ([10, 15], 2) ∧
    ((⟨[10, 20], 2, 2⟩ : SimpleVector Nat).InsertMove (some 1) (.external 15) >>= fun r =>
        r.2.Erase r.1 >>= fun e => pure (e.2.live, e.2.size_)) = .ok ([10, 15], 2) ∧
    ((⟨[10, 20], 2, 2⟩ : SimpleVector Nat).Insert (some 0) (.external 15) >>= fun r =>
        r.2.Erase r.1 >>= fun e => pure (e.2.live, e.2.size_)) = .ok ([10, 0], 2) :=
  ⟨rfl, rfl, rfl⟩

/-- C4: for a vector that satisfies the class invariant and an index `i` below its size,
`Erase(begin() + i)` returns normally, leaves size `size - 1`, live elements
`xs[0..i) ++ xs[i+1..)`, the same capacity, and returns `begin() + i` of the result, which
holds the element that followed the erased one, or is `end()` when `i` was the last
index. -/
theorem Erase_removes_element {T : Type} (v : SimpleVector T) (i : Nat) (pos : Iterator)
    (hwf : v.WF) (hi : i < v.size_) (hpos : v.begin.add i = .ok pos) :
    ∃ it w, v.Erase pos = .ok (it, w) ∧ w.GetSize = v.GetSize - 1 ∧
      w.live = v.live.take i ++ v.live.drop (i + 1) ∧ w.GetCapacity = v.GetCapacity ∧
      w.begin.add i = .ok it ∧
      (i + 1 < v.size_ → ∃ x, v.live[i + 1]? = some x ∧ w.deref it = .ok x) ∧
      (i + 1 = v.size_ → it = w.end_) := by
  have hb : v.begin = some 0 := by simp [SimpleVector.begin]; omega
  have hp : pos = some i := by
    rw [hb] at hpos
    simp only [Iterator.add, Nat.zero_add] at hpos
    exact (Except.ok.inj hpos).symm
  subst hp
  obtain ⟨it, w, he, _, hs, hl, hc, hbi, hx, hend⟩ := SimpleVector.Erase_spec v i hwf hi
  exact ⟨it, w, he, hs, hl, hc, hbi, hx, hend⟩

/-- Witness of C4: erasing index 0 of `[10, 15, 20]`. -/
theorem Erase_removes_element_witness :
    (⟨[10, 15, 20, 0], 3, 4⟩ : SimpleVector Nat).WF ∧ 0 < 3 ∧
    (⟨[10, 15, 20, 0], 3, 4⟩ : SimpleVector Nat).begin.add 0 = .ok (some 0) ∧
    ∃ it w, (⟨[10, 15, 20, 0], 3, 4⟩ : SimpleVector Nat).Erase (some 0) = .ok (it, w) ∧
      w.GetSize = 3 - 1 ∧ w.live = [15, 20] ∧ w.GetCapacity = 4 ∧ w.begin.add 0 = .ok it ∧
      (0 + 1 < 3 → ∃ x, [10, 15, 20][0 + 1]? = some x ∧ w.deref it = .ok x) ∧
      (0 + 1 = 3 → it = w.end_) :=
  ⟨⟨by decide, rfl⟩, by decide, rfl,
    Erase_removes_element (⟨[10, 15, 20, 0], 3, 4⟩ : SimpleVector Nat) 0 (some 0)
      ⟨by decide, rfl⟩ (by decide) rfl⟩

/-! ## PushBack -/

/-- With `size_ < new_size <= capacity_` the call `std::generate(begin() + new_size, end(), …)`
of `Resize` starts beyond `end()`: on every such vector `Resize` ends in undefined
behaviour. -/
theorem SimpleVector.Resize_within_capacity_undefined {T : Type} [Inhabited T]
    (v : SimpleVector T) (new_size : Nat) (hlt : v.size_ < new_size)
    (hle : new_size ≤ v.capacity_) : v.Resize new_size = .error .undefined_behaviour := by
  unfold SimpleVector.Resize
  rw [if_pos hle, if_pos hlt]
  by_cases hs : v.size_ = 0
  · have : ∃ n, new_size = n + 1 := ⟨new_size - 1, by omega⟩
    obtain ⟨n, rfl⟩ := this
    simp [SimpleVector.begin, hs, Iterator.add, bind, Except.bind]
  · simp only [SimpleVector.begin, SimpleVector.end_, hs, ne_eq, not_false_eq_true, if_true,
      Iterator.add, bind, Except.bind, std_generate, Nat.zero_add]
    rw [generate_loop_past default v.size_ _ new_size v.items_ hlt]

/-- C7: on the vector `{1, 2, 3}` after `PopBack()` (size 2, capacity 3), `Resize(3)` does not
return `[1, 2, 0]`: `std::generate(begin() + 3, end(), …)` writes slot 3 of a 3-slot
buffer. -/
theorem Resize_within_capacity_fails :
    (SimpleVector.ofList [1, 2, 3] : Except Fault (SimpleVector Nat))
      = .ok ⟨[1, 2, 3], 3, 3⟩ ∧
    (⟨[1, 2, 3], 3, 3⟩ : SimpleVector Nat).PopBack = ⟨[1, 2, 3], 2, 3⟩ ∧
    (⟨[1, 2, 3], 2, 3⟩ : SimpleVector Nat).Resize 3 = .error .undefined_behaviour :=
  ⟨rfl, rfl, rfl⟩

/-- C8: on a vector that satisfies the class invariant, `Resize(new_size)` with
`new_size > capacity` returns normally with `size = capacity = new_size`, every element
below the old size unchanged and every element in `[old size, new_size)` equal to
`Type{}`. -/
theorem Resize_beyond_capacity {T : Type} [Inhabited T] (v : SimpleVector T) (new_size : Nat)
    (hwf : v.WF) (hn : v.GetCapacity < new_size) :
    ∃ w, v.Resize new_size = .ok w ∧ w.GetSize = new_size ∧ w.GetCapacity = new_size ∧
      (∀ j, j < v.live.length → ∃ x, v.live[j]? = some x ∧ w.index j = .ok x) ∧
      (∀ j, v.live.length ≤ j → j < new_size → w.index j = .ok default) ∧
      w.live = v.live ++ List.replicate (new_size - v.live.length) default := by
  have hlen := SimpleVector.live_length v hwf
  have h1 := hwf.1
  simp only [SimpleVector.GetCapacity] at hn
  refine ⟨_, SimpleVector.Resize_grow v new_size hwf hn, rfl, rfl, ?_, ?_, ?_⟩
  · intro j hj
    refine ⟨v.live.get ⟨j, hj⟩, List.getElem?_eq_getElem hj, ?_⟩
    simp only [SimpleVector.index, load]
    rw [List.getElem?_append_left hj, List.getElem?_eq_getElem hj]; rfl
  · intro j hj hjn
    simp only [SimpleVector.index, load]
    rw [List.getElem?_append_right hj, List.getElem?_replicate, if_pos (by omega)]
  · simp only [SimpleVector.live]
    rw [List.take_of_length_le]
    · rw [← SimpleVector.live, hlen]
    · simp only [List.length_append, List.length_replicate]
      rw [← SimpleVector.live, hlen]; omega

/-- Witness of C8: `Resize(4)` on `[7, 8]` with one spare slot. -/
theorem Resize_beyond_capacity_witness :
    (⟨[7, 8, 9], 2, 3⟩ : SimpleVector Nat).WF ∧
    (⟨[7, 8, 9], 2, 3⟩ : SimpleVector Nat).GetCapacity < 4 ∧
    ∃ w, (⟨[7, 8, 9], 2, 3⟩ : SimpleVector Nat).Resize 4 = .ok w ∧ w.GetSize = 4 ∧
      w.GetCapacity = 4 ∧
      (∀ j, j < 2 → ∃ x, [7, 8][j]? = some x ∧ w.index j = .ok x) ∧
      (∀ j, 2 ≤ j → j < 4 → w.index j = .ok default) ∧
      w.live = [7, 8] ++ List.replicate (4 - 2) default :=
  ⟨⟨by decide, rfl⟩, by decide,
    Resize_beyond_capacity (⟨[7, 8, 9], 2, 3⟩ : SimpleVector Nat) 4 ⟨by decide, rfl⟩ (by decide)⟩

/-- C9: on the vector built by three `PushBack`s (size 3, capacity 4), `Reserve(4)` does not
return: it calls `Resize(4)` with `size_ < 4 <= capacity_`, which ends in undefined
behaviour.  The same holds for `Reserve(10)` on `SimpleVector(Reserve(10))`. -/
theorem Reserve_same_capacity_fails :
    (SimpleVector.empty : SimpleVector Nat).PushBackAll [1, 2, 3] = .ok ⟨[1, 2, 3, 0], 3, 4⟩ ∧
    (⟨[1, 2, 3, 0], 3, 4⟩ : SimpleVector Nat).Reserve 4 = .error .undefined_behaviour ∧
    (SimpleVector.ofReserve 10 : SimpleVector Nat).Reserve 10 = .error .undefined_behaviour :=
  ⟨rfl, rfl, rfl⟩

/-! ## At -/

/-- C10: `At(index)` fails with `out_of_range` exactly when `index >= GetSize()`; on a vector
that satisfies the class invariant and `index < GetSize()` it succeeds with the element
`operator[](index)` returns; the vector is the same after the call. -/
theorem At_checked {T : Type} (v : SimpleVector T) (i : Nat) (hwf : v.WF) :
    ((v.At i).1 = .error .out_of_range ↔ v.GetSize ≤ i) ∧
    (i < v.GetSize → ∃ x, (v.At i).1 = .ok x ∧ v.index i = .ok x) ∧
    (v.At i).2 = v := by
  obtain ⟨h1, h2⟩ := hwf
  refine ⟨?_, ?_, rfl⟩
  · constructor
    · intro h
      by_contra hc
      simp only [SimpleVector.GetSize, Nat.not_le] at hc
      simp only [SimpleVector.At, ge_iff_le, if_neg (Nat.not_le.mpr hc)] at h
      rw [load_of_lt v.items_ i (by omega)] at h
      exact Except.noConfusion h
    · intro h
      simp only [SimpleVector.GetSize] at h
      simp [SimpleVector.At, h]
  · intro h
    simp only [SimpleVector.GetSize] at h
    have hl : i < v.items_.length := by omega
    refine ⟨v.items_.get ⟨i, hl⟩, ?_, load_of_lt v.items_ i hl⟩
    simp only [SimpleVector.At, ge_iff_le, if_neg (Nat.not_le.mpr h)]
    exact load_of_lt v.items_ i hl

/-- Witness of C10: `At(1)` and `At(5)` on a vector of size 2. -/
theorem At_checked_witness :
    (⟨[7, 8, 9], 2, 3⟩ : SimpleVector Nat).WF ∧
    ((((⟨[7, 8, 9], 2, 3⟩ : SimpleVector Nat).At 1).1 = .error .out_of_range ↔
        (⟨[7, 8, 9], 2, 3⟩ : SimpleVector Nat).GetSize ≤ 1) ∧
      (1 < (⟨[7, 8, 9], 2, 3⟩ : SimpleVector Nat).GetSize →
        ∃ x, ((⟨[7, 8, 9], 2, 3⟩ : SimpleVector Nat).At 1).1 = .ok x ∧
          (⟨[7, 8, 9], 2, 3⟩ : SimpleVector Nat).index 1 = .ok x) ∧
      ((⟨[7, 8, 9], 2, 3⟩ : SimpleVector Nat).At 1).2 = ⟨[7, 8, 9], 2, 3⟩) ∧
    ((((⟨[7, 8, 9], 2, 3⟩ : SimpleVector Nat).At 5).1 = .error .out_of_range ↔
        (⟨[7, 8, 9], 2, 3⟩ : SimpleVector Nat).GetSize ≤ 5) ∧
      (5 < (⟨[7, 8, 9], 2, 3⟩ : SimpleVector Nat).GetSize →
        ∃ x, ((⟨[7, 8, 9], 2, 3⟩ : SimpleVector Nat).At 5).1 = .ok x ∧
          (⟨[7, 8, 9], 2, 3⟩ : SimpleVector Nat).index 5 = .ok x) ∧
      ((⟨[7, 8, 9], 2, 3⟩ : SimpleVector Nat).At 5).2 = ⟨[7, 8, 9], 2, 3⟩) :=
  ⟨⟨by decide, rfl⟩, At_checked (⟨[7, 8, 9], 2, 3⟩ : SimpleVector Nat) 1 ⟨by decide, rfl⟩,
    At_checked (⟨[7, 8, 9], 2, 3⟩ : SimpleVector Nat) 5 ⟨by decide, rfl⟩⟩

/-! ## Lengths of buffers after the loops -/

section LoopLengths

variable {T : Type}

theorem store_length (buf buf1 : List T) (i : Nat) (x : T) (h : store buf i x = .ok buf1) :
    buf1.length = buf.length := by
  unfold store at h
  split at h
  · rw [← Except.ok.inj h]; simp
  · exact Except.noConfusion h

theorem generate_loop_length (g : T) (last : Nat) :
    ∀ (budget first : Nat) (buf buf1 : List T),
      generate_loop g last budget first buf = .ok buf1 → buf1.length = buf.length := by
  intro budget
  induction budget with
  | zero => intro first buf buf1 h; exact Except.noConfusion h
  | succ b ih =>
    intro first buf buf1 h
    unfold generate_loop at h
    split at h
    · rw [← Except.ok.inj h]
    · cases hs : store buf first g with
      | error e => rw [hs] at h; exact Except.noConfusion h
      | ok b1 =>
        rw [hs] at h
        rw [ih (first + 1) b1 buf1 h, store_length _ _ _ _ hs]

theorem copy_loop_length (src : List T) (last : Nat) :
    ∀ (budget first d : Nat) (dst dst1 : List T),
      copy_loop src last budget first d dst = .ok dst1 → dst1.length = dst.length := by
  intro budget
  induction budget with
  | zero => intro first d dst dst1 h; exact Except.noConfusion h
  | succ b ih =>
    intro first d dst dst1 h
    unfold copy_loop at h
    split at h
    · rw [← Except.ok.inj h]
    · cases hl : load src first with
      | error e => rw [hl] at h; exact Except.noConfusion h
      | ok x =>
        rw [hl] at h
        cases hs : store dst d x with
        | error e => simp only [bind, Except.bind, hs] at h; exact Except.noConfusion h
        | ok b1 =>
          simp only [bind, Except.bind, hs] at h
          rw [ih (first + 1) (d + 1) b1 dst1 h, store_length _ _ _ _ hs]

theorem move_loop_length (last : Nat) :
    ∀ (budget first d : Nat) (buf buf1 : List T),
      move_loop last budget first d buf = .ok buf1 → buf1.length = buf.length := by
  intro budget
  induction budget with
  | zero => intro first d buf buf1 h; exact Except.noConfusion h
  | succ b ih =>
    intro first d buf buf1 h
    unfold move_loop at h
    split at h
    · rw [← Except.ok.inj h]
    · cases hl : load buf first with
      | error e => rw [hl] at h; exact Except.noConfusion h
      | ok x =>
        rw [hl] at h
        cases hs : store buf d x with
        | error e => simp only [bind, Except.bind, hs] at h; exact Except.noConfusion h
        | ok b1 =>
          simp only [bind, Except.bind, hs] at h
          rw [ih (first + 1) (d + 1) b1 buf1 h, store_length _ _ _ _ hs]

end LoopLengths

/-! ## The comparison loops -/

section CompareLoops

variable {T : Type}

/-- A non-empty range `[first, last)` of a buffer starts with the slot `first`. -/
theorem range_cons (a : List T) (first last : Nat) (h : first < last) (hl : last ≤ a.length) :
    (a.drop first).take (last - first)
      = a.get ⟨first, by omega⟩ :: (a.drop (first + 1)).take (last - (first + 1)) := by
  have hn : last - first = (last - (first + 1)) + 1 := by omega
  rw [hn, List.drop_eq_getElem_cons (by omega : first < a.length), List.take_succ_cons]
  rfl

/-- On a valid first range whose image lies in the second buffer, the loop of `std::equal`
decides whether the two ranges hold the same elements. -/
theorem equal_loop_valid [DecidableEq T] (a : List T) (last1 : Nat) (b : List T)
    (hl : last1 ≤ a.length) :
    ∀ (budget first1 first2 : Nat), first1 ≤ last1 → first2 + (last1 - first1) ≤ b.length →
      last1 - first1 < budget →
      equal_loop a last1 b budget first1 first2
        = .ok (decide ((a.drop first1).take (last1 - first1)
            = (b.drop first2).take (last1 - first1))) := by
  intro budget
  induction budget with
  | zero => intro first1 first2 _ _ h; omega
  | succ n ih =>
    intro first1 first2 h1 h2 hb
    unfold equal_loop
    by_cases h : first1 = last1
    · subst h; simp
    · have hf1 : first1 < a.length := by omega
      have hf2 : first2 < b.length := by omega
      simp only [h, if_false, load_of_lt a first1 hf1, load_of_lt b first2 hf2, bind,
        Except.bind]
      have ha := range_cons a first1 last1 (by omega) hl
      have hb2 := range_cons b first2 (first2 + (last1 - first1)) (by omega) h2
      have e1 : first2 + (last1 - first1) - first2 = last1 - first1 := by omega
      have e2 : first2 + (last1 - first1) - (first2 + 1) = last1 - (first1 + 1) := by omega
      rw [e1, e2] at hb2
      rw [ha, hb2]
      by_cases hxy : a.get ⟨first1, hf1⟩ = b.get ⟨first2, hf2⟩
      · rw [if_pos hxy, ih (first1 + 1) (first2 + 1) (by omega) (by omega) (by omega)]
        have hxy1 : a[first1] = b[first2] := hxy
        simp [hxy1]
      · rw [if_neg hxy]
        have hxy1 : ¬ a[first1] = b[first2] := hxy
        simp [hxy1, pure, Except.pure]

/-- On two valid ranges the loop of `std::lexicographical_compare` returns `true` exactly
when the first range is lexicographically less than the second (`List.lt`). -/
theorem lexicographical_compare_loop_valid [LT T] [DecidableRel (fun x y : T => x < y)]
    (a : List T) (last1 : Nat) (b : List T) (last2 : Nat) (hl1 : last1 ≤ a.length)
    (hl2 : last2 ≤ b.length) :
    ∀ (budget first1 first2 : Nat), first1 ≤ last1 → first2 ≤ last2 →
      last1 - first1 < budget →
      ∃ r, lexicographical_compare_loop a last1 b last2 budget first1 first2 = .ok r ∧
        (r = true ↔ List.lt ((a.drop first1).take (last1 - first1))
          ((b.drop first2).take (last2 - first2))) := by
  intro budget
  induction budget with
  | zero => intro first1 first2 _ _ h; omega
  | succ n ih =>
    intro first1 first2 h1 h2 hb
    unfold lexicographical_compare_loop
    by_cases h : first1 = last1
    · subst h
      by_cases h' : first2 = last2
      · subst h'
        refine ⟨false, by simp [pure, Except.pure], ?_⟩
        simp only [Nat.sub_self, List.take_zero]
        exact ⟨fun hh => Bool.noConfusion hh, fun hh => nomatch hh⟩
      · refine ⟨true, by simp [pure, Except.pure, h'], ?_⟩
        rw [range_cons b first2 last2 (by omega) hl2]
        simp only [Nat.sub_self, List.take_zero, true_iff]
        exact List.lt.nil _ _
    · by_cases h' : first2 = last2
      · subst h'
        refine ⟨false, by simp [pure, Except.pure, h], ?_⟩
        rw [range_cons a first1 last1 (by omega) hl1]
        simp only [Nat.sub_self, List.take_zero]
        exact ⟨fun hh => Bool.noConfusion hh, fun hh => nomatch hh⟩
      · have hf1 : first1 < a.length := by omega
        have hf2 : first2 < b.length := by omega
        rw [if_pos ⟨h, h'⟩]
        simp only [load_of_lt a first1 hf1, load_of_lt b first2 hf2, bind, Except.bind]
        rw [range_cons a first1 last1 (by omega) hl1, range_cons b first2 last2 (by omega) hl2]
        by_cases hxy : a.get ⟨first1, hf1⟩ < b.get ⟨first2, hf2⟩
        · rw [if_pos hxy]
          exact ⟨true, rfl, fun _ => List.lt.head _ _ hxy, fun _ => rfl⟩
        · rw [if_neg hxy]
          by_cases hyx : b.get ⟨first2, hf2⟩ < a.get ⟨first1, hf1⟩
          · rw [if_pos hyx]
            refine ⟨false, rfl, fun hh => Bool.noConfusion hh, fun hh => ?_⟩
            cases hh with
            | head _ _ hlt => exact absurd hlt hxy
            | tail _ hn _ => exact absurd hyx hn
          · rw [if_neg hyx]
            obtain ⟨r, hr, hiff⟩ := ih (first1 + 1) (first2 + 1) (by omega) (by omega)
              (by omega)
            refine ⟨r, hr, hiff.trans ⟨fun hh => List.lt.tail hxy hyx hh, fun hh => ?_⟩⟩
            cases hh with
            | head _ _ hlt => exact absurd hlt hxy
            | tail _ _ ht => exact ht

end CompareLoops

/-! ## Constructors, assignment and comparison on vectors that satisfy the class invariant -/

namespace SimpleVector

variable {T : Type}

/-- The initializer-list constructor returns the list itself as buffer. -/
theorem ofList_spec [Inhabited T] (init : List T) :
    ofList init = .ok { items_ := init, size_ := init.length, capacity_ := init.length } := by
  unfold ofList
  simp only [std_copy, ArrayPtr_new]
  rw [copy_loop_valid init init.length (Nat.le_refl _) _ 0 0 _ (Nat.zero_le _) (by simp)
    (by omega)]
  simp [bind, Except.bind, pure, Except.pure]

/-- Copy of the live range of a vector into a fresh buffer of `size_` slots. -/
theorem copy_live [Inhabited T] (v : SimpleVector T) (h : v.WF) :
    std_copy v.items_ v.begin v.end_ (ArrayPtr_new v.size_) 0 = .ok v.live := by
  obtain ⟨h1, h2⟩ := h
  by_cases hs : v.size_ = 0
  · simp [begin, end_, hs, std_copy, ArrayPtr_new, live]
  · simp only [begin, end_, hs, ne_eq, not_false_eq_true, if_true, std_copy, ArrayPtr_new]
    rw [copy_loop_valid v.items_ v.size_ (by omega) _ 0 0 _ (by omega) (by simp) (by omega)]
    simp [live]

/-- The copy constructor returns a vector whose buffer is the live range of the source. -/
theorem copy_construct_spec [Inhabited T] (other : SimpleVector T) (h : other.WF) :
    copy_construct other
      = .ok ({ items_ := other.live, size_ := other.size_, capacity_ := other.size_ },
             other) := by
  unfold copy_construct
  by_cases hs : other.size_ = 0
  · simp [IsEmpty, hs, ofSize, ArrayPtr_new, live, pure, Except.pure]
  · have he : (!other.IsEmpty) = true := by simp [IsEmpty, hs]
    rw [if_pos he]
    simp only [ofSize, copy_live other h, bind, Except.bind, pure, Except.pure]

/-- Copy assignment from a distinct vector adopts a buffer that is the live range of the
right-hand side. -/
theorem operator_assign_spec [Inhabited T] (self rhs : SimpleVector T) (h : rhs.WF) :
    operator_assign self rhs false
      = .ok ({ items_ := rhs.live, size_ := rhs.size_, capacity_ := rhs.size_ }, rhs) := by
  unfold operator_assign
  simp [copy_live rhs h, ArrayPtr_swap, bind, Except.bind, pure, Except.pure]

/-- Member `Clear()` sets the size to zero and changes nothing else. -/
theorem Clear_spec [Inhabited T] (v : SimpleVector T) :
    v.Clear = .ok { v with size_ := 0 } := by
  simp [Clear, Resize, pure, Except.pure]

/-- Two vectors have the same live elements exactly when their sizes agree and
`operator[]` agrees below the size. -/
theorem live_eq_iff (a b : SimpleVector T) (ha : a.WF) (hb : b.WF) :
    a.live = b.live ↔ a.size_ = b.size_ ∧ ∀ i, i < a.size_ → a.index i = b.index i := by
  have hla := live_length a ha
  have hlb := live_length b hb
  constructor
  · intro h
    have hs : a.size_ = b.size_ := by rw [← hla, ← hlb, h]
    refine ⟨hs, fun i hi => ?_⟩
    have h1 : a.live[i]? = b.live[i]? := by rw [h]
    simp only [live] at h1
    rw [List.getElem?_take_of_lt hi, List.getElem?_take_of_lt (by omega)] at h1
    simp only [index, load, h1]
  · rintro ⟨hs, hi⟩
    apply List.ext_getElem?
    intro i
    simp only [live]
    by_cases hlt : i < a.size_
    · rw [List.getElem?_take_of_lt hlt, List.getElem?_take_of_lt (by omega)]
      have := hi i hlt
      have hia : i < a.items_.length := by have := ha.1; have := ha.2; omega
      have hib : i < b.items_.length := by have := hb.1; have := hb.2; omega
      simp only [index, load_of_lt _ _ hia, load_of_lt _ _ hib] at this
      rw [List.getElem?_eq_getElem hia, List.getElem?_eq_getElem hib]
      exact congrArg some (Except.ok.inj this)
    · rw [List.getElem?_eq_none (by simp; omega), List.getElem?_eq_none (by simp; omega)]

/-- Free function `operator==` decides equality of the live elements. -/
theorem operator_eq_spec [DecidableEq T] (a b : SimpleVector T) (ha : a.WF) (hb : b.WF) :
    operator_eq a b = .ok (decide (a.live = b.live)) := by
  have hla := live_length a ha
  have hlb := live_length b hb
  unfold operator_eq
  by_cases hs : a.size_ = b.size_
  · rw [if_neg (by simpa [GetSize] using hs)]
    by_cases hz : a.size_ = 0
    · have hz2 : b.size_ = 0 := by omega
      simp [begin, end_, hz, hz2, std_equal, live]
    · have hz2 : b.size_ ≠ 0 := by omega
      simp only [begin, end_, hz, hz2, ne_eq, not_false_eq_true, if_true, std_equal]
      rw [if_neg (by simp)]
      rw [equal_loop_valid a.items_ a.size_ b.items_ (by have := ha.1; have := ha.2; omega)
        _ 0 0 (by omega) (by have := hb.1; have := hb.2; omega)
        (by have := ha.1; have := ha.2; omega)]
      simp [live, hs]
  · rw [if_pos (by simpa [GetSize] using hs)]
    have : a.live ≠ b.live := fun h => hs (by rw [← hla, ← hlb, h])
    simp [this, pure, Except.pure]

/-- Free function `operator<` on two empty or two non-empty vectors compares the live
elements lexicographically. -/
theorem operator_lt_spec [LT T] [DecidableRel (fun x y : T => x < y)] (a b : SimpleVector T)
    (ha : a.WF) (hb : b.WF) (he : a.size_ = 0 ↔ b.size_ = 0) :
    ∃ r, operator_lt a b = .ok r ∧ (r = true ↔ List.lt a.live b.live) := by
  unfold operator_lt
  by_cases hz : a.size_ = 0
  · have hz2 : b.size_ = 0 := he.mp hz
    refine ⟨false, by simp [begin, end_, hz, hz2, std_lexicographical_compare], ?_⟩
    simp only [live, hz, hz2, List.take_zero]
    exact ⟨fun hh => Bool.noConfusion hh, fun hh => nomatch hh⟩
  · have hz2 : b.size_ ≠ 0 := fun h => hz (he.mpr h)
    simp only [begin, end_, hz, hz2, ne_eq, not_false_eq_true, if_true,
      std_lexicographical_compare]
    rw [if_neg (by simp)]
    have := lexicographical_compare_loop_valid a.items_ a.size_ b.items_ b.size_
      (by have := ha.1; have := ha.2; omega) (by have := hb.1; have := hb.2; omega)
      (a.items_.length + 1) 0 0 (Nat.zero_le _) (Nat.zero_le _)
      (by have := ha.1; have := ha.2; omega)
    simpa [live] using this

/-- Free function `operator<` with exactly one empty operand returns `false`. -/
theorem operator_lt_one_empty [LT T] [DecidableRel (fun x y : T => x < y)]
    (a b : SimpleVector T) (he : ¬ (a.size_ = 0 ↔ b.size_ = 0)) :
    operator_lt a b = .ok false := by
  unfold operator_lt
  by_cases hz : a.size_ = 0
  · have hz2 : b.size_ ≠ 0 := fun h => he ⟨fun _ => h, fun _ => hz⟩
    simp [begin, hz, hz2, pure, Except.pure]
  · have hz2 : b.size_ = 0 := by
      by_contra h
      exact he ⟨fun h1 => absurd h1 hz, fun h1 => absurd h1 h⟩
    simp [begin, hz, hz2, pure, Except.pure]

end SimpleVector

/-! ## Insert: making room, the last live index, and the class invariant -/

section ExceptLemmas

end ExceptLemmas

namespace SimpleVector

variable {T : Type}

end SimpleVector

/-! ## The class invariant -/

section StdLengths

variable {T : Type}

end StdLengths

namespace SimpleVector

variable {T : Type}

/-- Member `Reserve` keeps the class invariant whenever it returns. -/
theorem Reserve_WF [Inhabited T] (v w : SimpleVector T) (new_capacity : Nat) (h : v.WF)
    (hr : v.Reserve new_capacity = .ok w) : w.WF := by
  by_cases hc : new_capacity ≠ v.capacity_ ∨ v.size_ = v.capacity_
  · obtain ⟨w1, hw1, hwf, _⟩ := Reserve_spec v new_capacity h hc
    rw [hw1] at hr
    rw [← Except.ok.inj hr]
    exact hwf
  · have h1 := h.1
    have hne : new_capacity = v.capacity_ := by
      by_contra hh; exact hc (Or.inl hh)
    have hsz : v.size_ ≠ v.capacity_ := fun hh => hc (Or.inr hh)
    unfold Reserve at hr
    rw [if_neg (by omega),
      Resize_within_capacity_undefined v new_capacity (by omega) (by omega)] at hr
    exact Except.noConfusion hr

end SimpleVector

section BackwardLoop

variable {T : Type}

end BackwardLoop

namespace SimpleVector

variable {T : Type}

end SimpleVector

namespace SimpleVector

variable {T : Type}

/-- Over a linearly ordered element type, on two vectors that are both empty or both
non-empty the comparison operators are consistent with one another: exactly one of
`a < b`, `a == b`, `a > b` holds, `a <= b` is `a < b || a == b` and `a >= b` is
`a > b || a == b`. -/
theorem operators_consistent [LinearOrder T] (a b : SimpleVector T) (ha : a.WF) (hb : b.WF)
    (he : a.size_ = 0 ↔ b.size_ = 0) :
    ∃ lt eq gt le ge, operator_lt a b = .ok lt ∧ operator_eq a b = .ok eq ∧
      operator_gt a b = .ok gt ∧ operator_le a b = .ok le ∧ operator_ge a b = .ok ge ∧
      ((lt = true ∧ eq = false ∧ gt = false) ∨ (lt = false ∧ eq = true ∧ gt = false) ∨
        (lt = false ∧ eq = false ∧ gt = true)) ∧
      (le = true ↔ lt = true ∨ eq = true) ∧ (ge = true ↔ gt = true ∨ eq = true) := by
  obtain ⟨lt, hlt, hP⟩ := operator_lt_spec a b ha hb he
  obtain ⟨gt, hgt, hR⟩ := operator_lt_spec b a hb ha he.symm
  have heq := operator_eq_spec a b ha hb
  have irr : ∀ l : List T, ¬ List.lt l l := List.lt_irrefl (fun x => lt_irrefl x)
  have asym : List.lt a.live b.live → ¬ List.lt b.live a.live := fun h1 h2 =>
    irr _ (List.lt_trans (fun h h' => lt_trans h h')
      (fun h h' => not_lt.mpr (le_trans (not_lt.mp h') (not_lt.mp h))) h1 h2)
  have tot : ¬ List.lt a.live b.live → ¬ List.lt b.live a.live → a.live = b.live :=
    fun h1 h2 => List.lt_antisymm
      (fun h h' => le_antisymm (not_lt.mp h') (not_lt.mp h)) h1 h2
  refine ⟨lt, decide (a.live = b.live), gt, !gt, !lt, hlt, heq, hgt, ?_, ?_, ?_, ?_, ?_⟩
  · simp only [operator_le, operator_gt, hgt, bind, Except.bind, pure, Except.pure]
  · simp only [operator_ge, hlt, bind, Except.bind, pure, Except.pure]
  · by_cases hp : List.lt a.live b.live
    · have hr : ¬ List.lt b.live a.live := asym hp
      have hq : a.live ≠ b.live := fun h => irr _ (h ▸ hp)
      left
      exact ⟨hP.mpr hp, decide_eq_false hq, by
        cases gt with
        | true => exact absurd (hR.mp rfl) hr
        | false => rfl⟩
    · have hl : lt = false := by
        cases lt with
        | true => exact absurd (hP.mp rfl) hp
        | false => rfl
      by_cases hr : List.lt b.live a.live
      · have hq : a.live ≠ b.live := fun h => irr _ (h ▸ hr)
        right; right
        exact ⟨hl, decide_eq_false hq, hR.mpr hr⟩
      · have hg : gt = false := by
          cases gt with
          | true => exact absurd (hR.mp rfl) hr
          | false => rfl
        right; left
        exact ⟨hl, decide_eq_true (tot hp hr), hg⟩
  · by_cases hp : List.lt a.live b.live
    · have hr : ¬ List.lt b.live a.live := asym hp
      have hg : gt = false := by
        cases gt with
        | true => exact absurd (hR.mp rfl) hr
        | false => rfl
      simp [hg, hP.mpr hp]
    · have hl : lt = false := by
        cases lt with
        | true => exact absurd (hP.mp rfl) hp
        | false => rfl
      by_cases hr : List.lt b.live a.live
      · have hq : a.live ≠ b.live := fun h => irr _ (h ▸ hr)
        simp [hl, hR.mpr hr, hq]
      · have hg : gt = false := by
          cases gt with
          | true => exact absurd (hR.mp rfl) hr
          | false => rfl
        simp [hl, hg, tot hp hr]
  · by_cases hp : List.lt a.live b.live
    · have hr : ¬ List.lt b.live a.live := asym hp
      have hq : a.live ≠ b.live := fun h => irr _ (h ▸ hp)
      have hg : gt = false := by
        cases gt with
        | true => exact absurd (hR.mp rfl) hr
        | false => rfl
      simp [hg, hP.mpr hp, hq]
    · have hl : lt = false := by
        cases lt with
        | true => exact absurd (hP.mp rfl) hp
        | false => rfl
      by_cases hr : List.lt b.live a.live
      · simp [hl, hR.mpr hr]
      · simp [hl, tot hp hr]

end SimpleVector

/-! ## Arguments that refer to an element of the vector itself -/

section RefLemmas

variable {T : Type}

/-- A reference into a released block cannot be read. -/
theorem Ref.read_after_release_element (buf : List T) (j : Nat) :
    (Ref.element j : Ref T).after_release.read buf = .error .undefined_behaviour := rfl

end RefLemmas

namespace SimpleVector

variable {T : Type}

/-- Result of `PushBack` for an argument that can be read and that is outside the vector
or meets a vector with a free slot. -/
theorem PushBack_spec_ref [Inhabited T] (v : SimpleVector T) (item : Ref T) (x : T)
    (h : v.WF) (hread : item.read v.items_ = .ok x)
    (hok : item = .external x ∨ v.size_ < v.capacity_) :
    ∃ w, v.PushBack item = .ok w ∧ w.WF ∧ w.live = v.live ++ [x] ∧
      w.size_ = v.size_ + 1 ∧
      w.capacity_ = if v.size_ < v.capacity_ then v.capacity_ else max 1 (2 * v.capacity_) := by
  by_cases hc : v.size_ < v.capacity_
  · obtain ⟨h1, h2⟩ := h
    rw [PushBack_room v item hc, hread]
    simp only [bind, Except.bind]
    rw [store_of_lt _ _ _ (by omega)]
    refine ⟨_, rfl, ⟨by simp; omega, by simp; omega⟩, ?_, rfl, by simp [hc]⟩
    simp only [live]
    exact take_succ_set _ _ _ (by omega)
  · have he : item = .external x := by
      rcases hok with hok | hok
      · exact hok
      · exact absurd hok hc
    rw [he]
    exact PushBack_spec v x h

end SimpleVector

namespace SimpleVector

variable {T : Type}

end SimpleVector

namespace SimpleVector

variable {T : Type}

end SimpleVector

/-! ## Comparison operators -/

/-- C11: `operator<` with an empty left operand and a non-empty right operand returns
`false`, although `[]` is a proper prefix of `[1]` and lexicographically less; the other
witnesses of the claim evaluate as stated. -/
theorem operator_lt_empty_left_false :
    SimpleVector.operator_lt (SimpleVector.empty : SimpleVector Nat) ⟨[1], 1, 1⟩ = .ok false ∧
    List.lt (SimpleVector.empty : SimpleVector Nat).live (⟨[1], 1, 1⟩ : SimpleVector Nat).live ∧
    SimpleVector.operator_lt (⟨[1, 2], 2, 2⟩ : SimpleVector Nat) ⟨[1, 2, 3], 3, 3⟩ = .ok true ∧
    SimpleVector.operator_lt (⟨[1, 3], 2, 2⟩ : SimpleVector Nat) ⟨[1, 2, 9], 3, 3⟩ = .ok false ∧
    SimpleVector.operator_lt (⟨[1, 2, 9], 3, 3⟩ : SimpleVector Nat) ⟨[1, 3], 2, 2⟩ = .ok true :=
  ⟨rfl, List.lt.nil _ _, rfl, rfl, rfl⟩

/-- C12: on two vectors that satisfy the class invariant `operator==` returns normally, and
returns `true` exactly when the sizes agree and `operator[]` agrees at every index below the
size, that is, when the live elements are the same; vectors of different sizes are never
equal and two empty vectors are equal whatever their capacities. -/
theorem operator_eq_elementwise {T : Type} [DecidableEq T] (a b : SimpleVector T)
    (ha : a.WF) (hb : b.WF) :
    ∃ r, SimpleVector.operator_eq a b = .ok r ∧
      (r = true ↔ a.GetSize = b.GetSize ∧ ∀ i, i < a.GetSize → a.index i = b.index i) ∧
      (r = true ↔ a.live = b.live) ∧
      (a.GetSize ≠ b.GetSize → r = false) ∧
      (a.GetSize = 0 → b.GetSize = 0 → r = true) := by
  have hiff := SimpleVector.live_eq_iff a b ha hb
  refine ⟨_, SimpleVector.operator_eq_spec a b ha hb, ?_, ?_, ?_, ?_⟩
  · rw [decide_eq_true_iff]; exact hiff
  · rw [decide_eq_true_iff]
  · intro hne
    rw [decide_eq_false_iff_not]
    exact fun h => hne (hiff.mp h).1
  · intro h0 h1
    rw [decide_eq_true_iff]
    simp only [SimpleVector.GetSize] at h0 h1
    simp [SimpleVector.live, h0, h1]

/-- Witness of C12: `{1, 2, 3}` against `{1, 2, 3}` with a spare slot, and `{1, 2}` against
`{1, 2, 3}`. -/
theorem operator_eq_elementwise_witness :
    (⟨[1, 2, 3], 3, 3⟩ : SimpleVector Nat).WF ∧ (⟨[1, 2, 3, 7], 3, 4⟩ : SimpleVector Nat).WF ∧
    (∃ r, SimpleVector.operator_eq (⟨[1, 2, 3], 3, 3⟩ : SimpleVector Nat) ⟨[1, 2, 3, 7], 3, 4⟩
        = .ok r ∧
      (r = true ↔ (⟨[1, 2, 3], 3, 3⟩ : SimpleVector Nat).GetSize
          = (⟨[1, 2, 3, 7], 3, 4⟩ : SimpleVector Nat).GetSize ∧
        ∀ i, i < (⟨[1, 2, 3], 3, 3⟩ : SimpleVector Nat).GetSize →
          (⟨[1, 2, 3], 3, 3⟩ : SimpleVector Nat).index i
            = (⟨[1, 2, 3, 7], 3, 4⟩ : SimpleVector Nat).index i) ∧
      (r = true ↔ [1, 2, 3] = [1, 2, 3]) ∧
      ((3 : Nat) ≠ 3 → r = false) ∧
      ((3 : Nat) = 0 → (3 : Nat) = 0 → r = true)) ∧
    SimpleVector.operator_eq (⟨[1, 2, 3], 3, 3⟩ : SimpleVector Nat) ⟨[1, 2, 3, 7], 3, 4⟩
      = .ok true ∧
    SimpleVector.operator_eq (⟨[1, 2], 2, 2⟩ : SimpleVector Nat) ⟨[1, 2, 3], 3, 3⟩ = .ok false :=
  ⟨⟨by decide, rfl⟩, ⟨by decide, rfl⟩,
    operator_eq_elementwise (⟨[1, 2, 3], 3, 3⟩ : SimpleVector Nat) ⟨[1, 2, 3, 7], 3, 4⟩
      ⟨by decide, rfl⟩ ⟨by decide, rfl⟩, rfl, rfl⟩

/-- C20: for the empty vector `a` and `b = {1}` none of `a < b`, `a == b`, `a > b` holds,
while `a <= b`, `a >= b`, `b <= a` and `b >= a` all hold: the operators are not consistent
with one another. -/
theorem operators_inconsistent_on_empty :
    SimpleVector.operator_lt (SimpleVector.empty : SimpleVector Nat) ⟨[1], 1, 1⟩ = .ok false ∧
    SimpleVector.operator_eq (SimpleVector.empty : SimpleVector Nat) ⟨[1], 1, 1⟩ = .ok false ∧
    SimpleVector.operator_gt (SimpleVector.empty : SimpleVector Nat) ⟨[1], 1, 1⟩ = .ok false ∧
    SimpleVector.operator_le (SimpleVector.empty : SimpleVector Nat) ⟨[1], 1, 1⟩ = .ok true ∧
    SimpleVector.operator_ge (SimpleVector.empty : SimpleVector Nat) ⟨[1], 1, 1⟩ = .ok true ∧
    SimpleVector.operator_le (⟨[1], 1, 1⟩ : SimpleVector Nat) SimpleVector.empty = .ok true ∧
    SimpleVector.operator_ge (⟨[1], 1, 1⟩ : SimpleVector Nat) SimpleVector.empty = .ok true :=
  ⟨rfl, rfl, rfl, rfl, rfl, rfl, rfl⟩

/-! ## Construction, copy and move -/

/-- C14: for a source that satisfies the class invariant, copy construction and copy
assignment to a distinct vector return normally a vector with `size = capacity = |xs|` and
live elements `xs`, and leave the source as it was. -/
theorem copy_has_size_as_capacity {T : Type} [Inhabited T] (s dst : SimpleVector T)
    (hs : s.WF) :
    (∃ c, SimpleVector.copy_construct s = .ok (c, s) ∧ c.GetSize = s.live.length ∧
      c.GetCapacity = s.live.length ∧ c.live = s.live) ∧
    (∃ c, SimpleVector.operator_assign dst s false = .ok (c, s) ∧ c.GetSize = s.live.length ∧
      c.GetCapacity = s.live.length ∧ c.live = s.live) := by
  have hlen := SimpleVector.live_length s hs
  have hl : List.take s.size_ s.live = s.live := List.take_of_length_le (by omega)
  exact ⟨⟨_, SimpleVector.copy_construct_spec s hs, hlen.symm, hlen.symm, hl⟩,
    ⟨_, SimpleVector.operator_assign_spec dst s hs, hlen.symm, hlen.symm, hl⟩⟩

/-- Witness of C14: a vector built with `Reserve(10)` and two `PushBack`s is copied to a
vector of capacity 2. -/
theorem copy_has_size_as_capacity_witness :
    (SimpleVector.ofReserve 10 : SimpleVector Nat).PushBackAll [1, 2]
      = .ok ⟨[1, 2, 0, 0, 0, 0, 0, 0, 0, 0], 2, 10⟩ ∧
    (⟨[1, 2, 0, 0, 0, 0, 0, 0, 0, 0], 2, 10⟩ : SimpleVector Nat).WF ∧
    (∃ c, SimpleVector.copy_construct (⟨[1, 2, 0, 0, 0, 0, 0, 0, 0, 0], 2, 10⟩ : SimpleVector Nat)
        = .ok (c, ⟨[1, 2, 0, 0, 0, 0, 0, 0, 0, 0], 2, 10⟩) ∧ c.GetSize = 2 ∧
      c.GetCapacity = 2 ∧ c.live = [1, 2]) ∧
    (∃ c, SimpleVector.operator_assign (⟨[5], 1, 1⟩ : SimpleVector Nat)
        ⟨[1, 2, 0, 0, 0, 0, 0, 0, 0, 0], 2, 10⟩ false
        = .ok (c, ⟨[1, 2, 0, 0, 0, 0, 0, 0, 0, 0], 2, 10⟩) ∧ c.GetSize = 2 ∧
      c.GetCapacity = 2 ∧ c.live = [1, 2]) :=
  ⟨rfl, ⟨by decide, rfl⟩,
    copy_has_size_as_capacity (⟨[1, 2, 0, 0, 0, 0, 0, 0, 0, 0], 2, 10⟩ : SimpleVector Nat)
      ⟨[5], 1, 1⟩ ⟨by decide, rfl⟩⟩

/-- C15: move construction yields a vector with the size, the capacity and the live
elements of the source, and leaves the source with `GetSize() = 0`, `GetCapacity() = 0` and
`IsEmpty()` true; so it does for the source `{1, 2, 3}` of size 3. -/
theorem move_construct_empties_source {T : Type} (s : SimpleVector T) :
    (SimpleVector.move_construct s).1.GetSize = s.GetSize ∧
    (SimpleVector.move_construct s).1.GetCapacity = s.GetCapacity ∧
    (SimpleVector.move_construct s).1.live = s.live ∧
    (SimpleVector.move_construct s).2.GetSize = 0 ∧
    (SimpleVector.move_construct s).2.GetCapacity = 0 ∧
    (SimpleVector.move_construct s).2.IsEmpty = true ∧
    SimpleVector.move_construct (⟨[1, 2, 3], 3, 3⟩ : SimpleVector Nat)
      = (⟨[1, 2, 3], 3, 3⟩, ⟨[], 0, 0⟩) :=
  ⟨rfl, rfl, rfl, rfl, rfl, rfl, rfl⟩

/-- C16: the vector constructed from a literal list `L` has
`GetSize() = GetCapacity() = |L|` and `operator[](i)` returns `L[i]` for every `i < |L|`. -/
theorem ofList_elements {T : Type} [Inhabited T] (L : List T) :
    ∃ w, SimpleVector.ofList L = .ok w ∧ w.GetSize = L.length ∧ w.GetCapacity = L.length ∧
      ∀ (i : Nat) (h : i < L.length), w.index i = .ok (L.get ⟨i, h⟩) :=
  ⟨_, SimpleVector.ofList_spec L, rfl, rfl, fun i h => load_of_lt L i h⟩

/-! ## Clear -/

/-- C17: on a vector that satisfies the class invariant `Clear()` returns normally, leaves
`GetCapacity()` unchanged, sets `GetSize()` to 0 and makes `IsEmpty()` true; when the
capacity was positive a subsequent `PushBack` returns with the same capacity, for an
argument outside the vector and for any argument that can be read. -/
theorem Clear_keeps_capacity {T : Type} [Inhabited T] (v : SimpleVector T) (hwf : v.WF) :
    ∃ w, v.Clear = .ok w ∧ w.GetCapacity = v.GetCapacity ∧ w.GetSize = 0 ∧
      w.IsEmpty = true ∧
      (0 < v.GetCapacity →
        ∀ x, ∃ u, w.PushBack (.external x) = .ok u ∧ u.GetCapacity = v.GetCapacity) ∧
      (0 < v.GetCapacity → ∀ (item : Ref T) x, item.read w.items_ = .ok x →
        ∃ u, w.PushBack item = .ok u ∧ u.GetCapacity = v.GetCapacity) := by
  have hw : ({ v with size_ := 0 } : SimpleVector T).WF := ⟨Nat.zero_le _, hwf.2⟩
  have key : 0 < v.GetCapacity → ∀ (item : Ref T) x,
      item.read ({ v with size_ := 0 } : SimpleVector T).items_ = .ok x →
      ∃ u, ({ v with size_ := 0 } : SimpleVector T).PushBack item = .ok u ∧
        u.GetCapacity = v.GetCapacity := by
    intro hc item x hread
    simp only [SimpleVector.GetCapacity] at hc
    obtain ⟨u, hu, _, _, _, hcap⟩ :=
      SimpleVector.PushBack_spec_ref _ item x hw hread (Or.inr hc)
    refine ⟨u, hu, ?_⟩
    show u.capacity_ = v.capacity_
    rw [hcap]
    exact if_pos hc
  exact ⟨_, SimpleVector.Clear_spec v, rfl, rfl, rfl,
    fun hc x => key hc (.external x) x rfl, key⟩

/-- Witness of C17: `Clear()` on `[1, 2, 3]` with capacity 4. -/
theorem Clear_keeps_capacity_witness :
    (⟨[1, 2, 3, 0], 3, 4⟩ : SimpleVector Nat).WF ∧
    ∃ w, (⟨[1, 2, 3, 0], 3, 4⟩ : SimpleVector Nat).Clear = .ok w ∧ w.GetCapacity = 4 ∧
      w.GetSize = 0 ∧ w.IsEmpty = true ∧
      (0 < 4 → ∀ x, ∃ u, w.PushBack (.external x) = .ok u ∧ u.GetCapacity = 4) ∧
      (0 < 4 → ∀ (item : Ref Nat) x, item.read w.items_ = .ok x →
        ∃ u, w.PushBack item = .ok u ∧ u.GetCapacity = 4) :=
  ⟨⟨by decide, rfl⟩,
    Clear_keeps_capacity (⟨[1, 2, 3, 0], 3, 4⟩ : SimpleVector Nat) ⟨by decide, rfl⟩⟩

/-! ## The class invariant as a claim -/

/-- C19: on the vector `[10, 20]` the two overloads of `Insert` differ: at `begin()` the
copying overload leaves the live elements `[15, 10, 0]` and the moving overload
`[15, 10, 20]`; at `end()` the copying overload is undefined and the moving overload leaves
`[10, 20, 15]`. -/
theorem Insert_overloads_differ :
    (⟨[10, 20], 2, 2⟩ : SimpleVector Nat).Insert (some 0) (.external 15)
      = .ok (some 0, ⟨[15, 10, 0, 0], 3, 4⟩) ∧
    (⟨[10, 20], 2, 2⟩ : SimpleVector Nat).InsertMove (some 0) (.external 15)
      = .ok (some 0, ⟨[15, 10, 20, 0], 3, 4⟩) ∧
    (⟨[15, 10, 0, 0], 3, 4⟩ : SimpleVector Nat).live = [15, 10, 0] ∧
    (⟨[15, 10, 20, 0], 3, 4⟩ : SimpleVector Nat).live = [15, 10, 20] ∧
    (⟨[10, 20], 2, 2⟩ : SimpleVector Nat).Insert (some 2) (.external 15)
      = .error .undefined_behaviour ∧
    (⟨[10, 20], 2, 2⟩ : SimpleVector Nat).InsertMove (some 2) (.external 15)
      = .ok (some 2, ⟨[10, 20, 15, 0], 3, 4⟩) :=
  ⟨rfl, rfl, rfl, rfl, rfl, rfl⟩

/-! ## PushBack with an argument received by reference -/

